import Mathlib

/-!
Verification of the Provider Orchestration & Content Normalization Engine
of the ai-kio-mcp repository, against its natural-language specification.

The development shallowly embeds the relevant TypeScript functions as Lean
definitions over `List Char` (for JS strings), `Int` (for millisecond
timestamps) and explicit state records, and proves or refutes the frozen
claims about them. Definitions come first, theorems afterwards.
-/

namespace KioMcp

/-! ## Content pagination (src/normalization/judgment.ts) -/

/-- Continuation record attached to every paginated content window
(the interface named ContinuationInfo in src/providers/types.ts). -/
structure ContinuationInfo where
  truncated : Bool
  nextOffsetChars : Option Nat
  totalChars : Nat
deriving DecidableEq, Repr

/-- JavaScript String.prototype.substring: both indices are clamped to
the interval from 0 to the length, and swapped when start exceeds stop. -/
def jsSubstring (s : List Char) (start stop : Nat) : List Char :=
  let n := s.length
  let a := min start n
  let b := min stop n
  (s.drop (min a b)).take (max a b - min a b)

/-- Embedding of paginateContent from src/normalization/judgment.ts:
clamps the offset, slices the window, reports truncation and the next
offset only when truncated. -/
def paginateContent (fullText : List Char) (maxChars offsetChars : Nat) :
    List Char × ContinuationInfo :=
  let totalChars := fullText.length
  let startOffset := min offsetChars totalChars
  let endOffset := min (startOffset + maxChars) totalChars
  let paginatedText := jsSubstring fullText startOffset endOffset
  (paginatedText,
   { truncated := decide (endOffset < totalChars)
     nextOffsetChars := if endOffset < totalChars then some endOffset else none
     totalChars := totalChars })

/-- Embedding of the inline character pagination in SaosProvider.getJudgment
(src/providers/saos/index.ts): the start offset is taken as given, without
clamping, before being passed to substring. -/
def saosInlinePagination (fullText : List Char) (maxChars offsetChars : Nat) :
    List Char × ContinuationInfo :=
  let totalChars := fullText.length
  let startOffset := offsetChars
  let endOffset := min (startOffset + maxChars) totalChars
  let paginatedText := jsSubstring fullText startOffset endOffset
  (paginatedText,
   { truncated := decide (endOffset < totalChars)
     nextOffsetChars := if endOffset < totalChars then some endOffset else none
     totalChars := totalChars })

/-! ## Metadata merging (src/normalization/judgment.ts, mergeMetadata) -/

/-- Canonical judgment metadata record (NormalizedJudgmentMetadata in
src/providers/types.ts). Optional fields are Options; the judgment type is
kept as a plain string of the enum value. -/
structure NormalizedJudgmentMetadata where
  caseNumbers : List String
  judgmentDate : String
  judgmentType : String
  decision : Option String
  legalBases : List String
  judges : List String
  keywords : List String
  courtName : Option String
deriving DecidableEq, Repr

/-- Partial metadata fragment, one argument of mergeMetadata: every field may
be absent (the TypeScript Partial wrapper). -/
structure MetadataFragment where
  caseNumbers : Option (List String) := none
  judgmentDate : Option String := none
  judgmentType : Option String := none
  decision : Option String := none
  legalBases : Option (List String) := none
  judges : Option (List String) := none
  keywords : Option (List String) := none
  courtName : Option String := none
deriving DecidableEq, Repr

/-- First-seen order-preserving deduplication with an accumulator of the
values already seen; the spread of a JS Set keeps the first occurrence of
each value in insertion order. -/
def dedupSeen (seen : List String) : List String → List String
  | [] => []
  | x :: xs => if x ∈ seen then dedupSeen seen xs else x :: dedupSeen (x :: seen) xs

/-- Embedding of deduplicateArray from src/normalization/judgment.ts, the
spread of a JS Set built from the array. -/
def deduplicateArray (arr : List String) : List String := dedupSeen [] arr

/-- One array-field update of mergeMetadata: the guard source.field?.length is
truthy exactly when the field is present and non-empty, in which case the
accumulator is extended and deduplicated. -/
def mergeArrayField (cur : List String) (src : Option (List String)) : List String :=
  match src with
  | some l => if l.isEmpty then cur else deduplicateArray (cur ++ l)
  | none => cur

/-- One scalar-field update of mergeMetadata for judgmentDate and
judgmentType: the guard is JS truthiness, so an empty string never
overwrites. -/
def mergeScalarField (cur : String) (src : Option String) : String :=
  match src with
  | some s => if s = "" then cur else s
  | none => cur

/-- The decision update of mergeMetadata: the source guard is a comparison
with undefined, so any present value overwrites, the empty string included. -/
def mergeDecisionField (cur src : Option String) : Option String :=
  match src with
  | some s => some s
  | none => cur

/-- The courtName update of mergeMetadata: truthiness guard on an optional
accumulator field. -/
def mergeCourtField (cur src : Option String) : Option String :=
  match src with
  | some s => if s = "" then cur else some s
  | none => cur

/-- One iteration of the mergeMetadata loop over a single source fragment.
The field updates in the source body touch pairwise distinct fields, so the
sequential mutations are recorded as one record update. -/
def mergeMetadataStep (result : NormalizedJudgmentMetadata)
    (source : MetadataFragment) : NormalizedJudgmentMetadata where
  caseNumbers := mergeArrayField result.caseNumbers source.caseNumbers
  judgmentDate := mergeScalarField result.judgmentDate source.judgmentDate
  judgmentType := mergeScalarField result.judgmentType source.judgmentType
  decision := mergeDecisionField result.decision source.decision
  legalBases := mergeArrayField result.legalBases source.legalBases
  judges := mergeArrayField result.judges source.judges
  keywords := mergeArrayField result.keywords source.keywords
  courtName := mergeCourtField result.courtName source.courtName

/-- The accumulator mergeMetadata starts from: empty arrays, empty date,
judgment type DECISION, absent decision and court name. -/
def emptyMetadata : NormalizedJudgmentMetadata where
  caseNumbers := []
  judgmentDate := ""
  judgmentType := "DECISION"
  decision := none
  legalBases := []
  judges := []
  keywords := []
  courtName := none

/-- Embedding of mergeMetadata from src/normalization/judgment.ts over a list
of fragments in argument order. -/
def mergeMetadata (sources : List MetadataFragment) : NormalizedJudgmentMetadata :=
  sources.foldl mergeMetadataStep emptyMetadata

/-- Concrete fragment used in witnesses: one case number and a date. -/
def fragDated : MetadataFragment :=
  { caseNumbers := some ("KIO 100/23" :: []), judgmentDate := some "2023-01-01" }

/-- Concrete fragment used in witnesses: overlapping case numbers, an empty
date override and a defined decision. -/
def fragOverride : MetadataFragment :=
  { caseNumbers := some ("KIO 100/23" :: "KIO 101/23" :: []), judgmentDate := some "", decision := some "granted" }

/-- Concrete fragment whose decision is the non-empty value granted. -/
def fragGranted : MetadataFragment := { decision := some "granted" }

/-- Concrete fragment whose decision is present but empty. -/
def fragEmptyDecision : MetadataFragment := { decision := some "" }

/-! ## Rate limiter (sliding window, src/security/rate-limiter.ts) -/

/-- Rate limit configuration: maximum number of requests per window and the
window size in milliseconds. -/
structure RateLimitConfig where
  maxRequests : Nat
  windowMs : Int
deriving DecidableEq, Repr

/-- Result of RateLimiter.checkLimit together with the timestamp list stored
for the caller afterwards. The source mutates the entry to the pruned list
before either throwing RateLimitError or pushing the current time. The last
constructor records the corner in which the source reads index 0 of an empty
array (reachable only when maxRequests is 0, making the retry delay NaN). -/
inductive RateCheckResult where
  | allowed (newTimestamps : List Int)
  | rejected (retryAfterMs : Int) (newTimestamps : List Int)
  | rejectedNoOldest (newTimestamps : List Int)
deriving DecidableEq, Repr

/-- Timestamp list stored for the caller after a checkLimit call. -/
def rateNewTimestamps : RateCheckResult → List Int
  | .allowed ts => ts
  | .rejected _ ts => ts
  | .rejectedNoOldest ts => ts

/-- Embedding of RateLimiter.checkLimit: prune timestamps at or before the
window start, reject with the retry delay computed from the oldest remaining
timestamp when the pruned count reaches the limit, otherwise record now. -/
def checkLimit (cfg : RateLimitConfig) (now : Int) (timestamps : List Int) :
    RateCheckResult :=
  let windowStart := now - cfg.windowMs
  let pruned := timestamps.filter (fun ts => windowStart < ts)
  if cfg.maxRequests ≤ pruned.length then
    match pruned with
    | t0 :: _ => .rejected (t0 + cfg.windowMs - now) pruned
    | [] => .rejectedNoOldest pruned
  else
    .allowed (pruned ++ (now :: []))

/-- Embedding of RateLimiter.getRemainingRequests: the budget left after
pruning, never below zero (Nat subtraction models Math.max 0). -/
def getRemainingRequests (cfg : RateLimitConfig) (now : Int)
    (entry : Option (List Int)) : Nat :=
  match entry with
  | none => cfg.maxRequests
  | some timestamps =>
    cfg.maxRequests - (timestamps.filter (fun ts => now - cfg.windowMs < ts)).length

/-- Concrete rate limit configuration used in witnesses: 2 requests per
60 second window. -/
def rlCfgW : RateLimitConfig := { maxRequests := 2, windowMs := 60000 }

/-! ## In-memory TTL cache (src/cache/memory-cache.ts) -/

/-- A stored cache entry: value, absolute expiry time and creation time in
milliseconds (CacheEntry in src/cache/types.ts). -/
structure CacheEntry (α : Type) where
  value : α
  expiresAt : Int
  createdAt : Int
deriving DecidableEq, Repr

/-- Cache configuration after the constructor fills the defaults: default
TTL, capacity bound, and the namespace text prepended to keys (the source
field keyPrefix). -/
structure CacheConfig where
  defaultTtlMs : Int
  maxEntries : Nat
  keyPfx : String
deriving DecidableEq, Repr

/-- Mutable state of a MemoryCache: the backing JS Map as an association
list in insertion order, plus the hit and miss counters. -/
structure MemoryCacheState (α : Type) where
  entries : List (String × CacheEntry α)
  hits : Nat
  misses : Nat
deriving DecidableEq, Repr

/-- The state of a freshly constructed MemoryCache. -/
def initialCacheState (α : Type) : MemoryCacheState α :=
  { entries := [], hits := 0, misses := 0 }

/-- JS Map.prototype.get on the insertion-ordered association list. -/
def mapGet {α : Type} : List (String × α) → String → Option α
  | [], _ => none
  | (k0, v0) :: rest, k => if k0 = k then some v0 else mapGet rest k

/-- JS Map.prototype.set: an existing key keeps its insertion position and
gets the new value; a fresh key is appended at the end. -/
def mapSet {α : Type} : List (String × α) → String → α → List (String × α)
  | [], k, v => (k, v) :: []
  | (k0, v0) :: rest, k, v =>
    if k0 = k then (k, v) :: rest else (k0, v0) :: mapSet rest k v

/-- JS Map.prototype.delete (keys are unique, so removing the first
occurrence removes the key). -/
def mapDelete {α : Type} : List (String × α) → String → List (String × α)
  | [], _ => []
  | (k0, v0) :: rest, k => if k0 = k then rest else (k0, v0) :: mapDelete rest k

/-- Embedding of MemoryCache.buildKey: the optional namespace text is
prepended with a colon when non-empty (JS truthiness on the string). -/
def buildKey (cfg : CacheConfig) (key : String) : String :=
  if cfg.keyPfx = "" then key else cfg.keyPfx ++ ":" ++ key

/-- Embedding of MemoryCache.evictIfNeeded: when the size exceeds the bound,
the oldest entries, at the front of the insertion order, are deleted until
the bound is restored. -/
def evictIfNeeded {α : Type} (maxEntries : Nat) (m : List (String × α)) :
    List (String × α) :=
  if m.length ≤ maxEntries then m else m.drop (m.length - maxEntries)

/-- Embedding of MemoryCache.get at the current time: a missing key counts a
miss; an entry whose expiry lies strictly in the past is deleted and counts
a miss; otherwise the value is returned and counts a hit. -/
def cacheGet {α : Type} (cfg : CacheConfig) (now : Int) (key : String)
    (st : MemoryCacheState α) : Option α × MemoryCacheState α :=
  let fullKey := buildKey cfg key
  match mapGet st.entries fullKey with
  | none => (none, { st with misses := st.misses + 1 })
  | some entry =>
    if entry.expiresAt < now then
      (none, { entries := mapDelete st.entries fullKey
               hits := st.hits
               misses := st.misses + 1 })
    else
      (some entry.value, { st with hits := st.hits + 1 })

/-- Embedding of MemoryCache.set at the current time: stores the value with
expiry now plus the given TTL (or the default TTL), then evicts the oldest
entries if the capacity bound is exceeded. -/
def cacheSet {α : Type} (cfg : CacheConfig) (now : Int) (key : String)
    (value : α) (ttlMs : Option Int) (st : MemoryCacheState α) :
    MemoryCacheState α :=
  let fullKey := buildKey cfg key
  let ttl := ttlMs.getD cfg.defaultTtlMs
  let entry : CacheEntry α := { value := value, expiresAt := now + ttl, createdAt := now }
  { st with entries := evictIfNeeded cfg.maxEntries (mapSet st.entries fullKey entry) }

/-- Snapshot returned by MemoryCache.stats; the hit rate is a rational. -/
structure CacheStats where
  hits : Nat
  misses : Nat
  size : Nat
  hitRate : ℚ
deriving DecidableEq, Repr

/-- Embedding of MemoryCache.stats: the hit rate is hits over total
requests, and 0 when no request was counted. -/
def cacheStats {α : Type} (st : MemoryCacheState α) : CacheStats :=
  { hits := st.hits
    misses := st.misses
    size := st.entries.length
    hitRate := if 0 < st.hits + st.misses
      then (st.hits : ℚ) / ((st.hits : ℚ) + (st.misses : ℚ))
      else 0 }

/-- The public mutating operations of the cache, used to range over the
reachable states. -/
inductive CacheOp (α : Type) where
  | get (now : Int) (key : String)
  | set (now : Int) (key : String) (value : α) (ttlMs : Option Int)
  | del (key : String)
  | clear
deriving Repr

/-- One public cache operation applied to the state: get and set as above,
delete removes the key, clear empties the map and resets both counters. -/
def cacheStep {α : Type} (cfg : CacheConfig) (st : MemoryCacheState α) :
    CacheOp α → MemoryCacheState α
  | .get now k => (cacheGet cfg now k st).2
  | .set now k v ttl => cacheSet cfg now k v ttl st
  | .del k => { st with entries := mapDelete st.entries (buildKey cfg k) }
  | .clear => initialCacheState α

/-- The state reached from a fresh cache by a sequence of operations. -/
def cacheRun {α : Type} (cfg : CacheConfig) (ops : List (CacheOp α)) :
    MemoryCacheState α :=
  ops.foldl (cacheStep cfg) (initialCacheState α)

/-- Number of get operations performed since the most recent clear (or from
the start when no clear occurred). -/
def getsSinceClear {α : Type} (ops : List (CacheOp α)) : Nat :=
  ops.foldl
    (fun g op =>
      match op with
      | .get _ _ => g + 1
      | .clear => 0
      | _ => g)
    0

/-- Concrete cache configuration used in witnesses. -/
def ccCfgW : CacheConfig := { defaultTtlMs := 60000, maxEntries := 10000, keyPfx := "" }

/-! ## Audit logger (src/security/audit-logger.ts) -/

/-- One audit log entry. The free-form metadata bag is modelled by the two
fields that logSearch stores in it (result count and cached flag). -/
structure AuditEntry where
  timestamp : String
  eventType : String
  clientId : Option String
  provider : Option String
  resourceId : Option String
  query : Option String
  success : Bool
  latencyMs : Option Int
  errorMessage : Option String
  metaResultCount : Option Nat
  metaCached : Option Bool
deriving DecidableEq, Repr

/-- The AuditLogger constructor default for the includeSensitive option:
absent means false (sensitive payloads are redacted by default). -/
def auditIncludeSensitive (cfgIncludeSensitive : Option Bool) : Bool :=
  cfgIncludeSensitive.getD false

/-- Embedding of AuditLogger.logSearch: builds the stored entry; the raw
query text is kept only under the sensitive-data opt-in, otherwise the
field is left absent. The timestamp is the creation time rendered as text,
taken as a parameter. -/
def logSearchEntry (includeSensitive : Bool) (timestamp : String)
    (clientId : Option String) (provider : String) (query : Option String)
    (resultCount : Nat) (latencyMs : Int) (cached : Bool) : AuditEntry where
  timestamp := timestamp
  eventType := "search"
  clientId := clientId
  provider := some provider
  resourceId := none
  query := if includeSensitive then query else none
  success := true
  latencyMs := some latencyMs
  errorMessage := none
  metaResultCount := some resultCount
  metaCached := some cached

/-! ## Error taxonomy (src/utils/errors.ts) -/

/-- The KioError class hierarchy as a sum: every concrete error class is a
direct subclass of the base class; in particular NotFoundError is not a
subclass of ProviderError. Fields follow the respective constructors. -/
inductive KioErr where
  | baseError (message code : String) (statusCode : Nat) (isRetryable : Bool)
  | providerError (message provider : String) (statusCode : Nat) (isRetryable : Bool)
  | rateLimitError (message : String) (retryAfterMs : Int)
  | validationError (message : String)
  | notFoundError (resourceType resourceId : String)
  | timeoutError (message : String) (timeoutMs : Int)
  | domainNotAllowedError (domain : String)
deriving DecidableEq, Repr

/-- Caller-visible error of a tool response (createToolError in
src/tools/types.ts): machine-readable code, message, retryability flag and
optional retry delay. -/
structure ToolError where
  code : String
  message : String
  retryable : Bool
  retryAfterMs : Option Int
deriving DecidableEq, Repr

/-- A tool response: success with payload and cached flag, or an error. -/
inductive ToolResponse (α : Type) where
  | ok (data : α) (cached : Bool)
  | err (e : ToolError)
deriving DecidableEq, Repr

/-- The catch block shared by executeKioGetJudgment and executeKioSearch:
an instanceof ProviderError test, then an instanceof ValidationError test,
then the fallback to a retryable internal error. A NotFoundError matches
neither test and falls through to the fallback. -/
def classifyJudgmentError (e : KioErr) : ToolError :=
  match e with
  | .providerError msg _ _ retry =>
    { code := "PROVIDER_ERROR", message := msg, retryable := retry
      retryAfterMs := none }
  | .validationError msg =>
    { code := "VALIDATION_ERROR", message := msg, retryable := false
      retryAfterMs := none }
  | _ =>
    { code := "INTERNAL_ERROR", message := "An unexpected error occurred"
      retryable := true, retryAfterMs := none }

/-! ## SAOS provider error path (src/providers/saos/index.ts, getJudgment) -/

/-- Digit test for parseInt. -/
def isDigitCh (c : Char) : Bool := decide ('0' ≤ c) && decide (c ≤ '9')

/-- Decimal value of a digit run. -/
def decimalValue (ds : List Char) : Nat :=
  ds.foldl (fun acc c => acc * 10 + (c.toNat - '0'.toNat)) 0

/-- JavaScript parseInt with radix 10: skip leading whitespace, take an
optional sign and then the longest run of leading digits; NaN (none) when
no digit follows; trailing text is ignored. -/
def jsParseInt (s : String) : Option Int :=
  let cs := s.toList.dropWhile
    (fun c => c == ' ' || c == '\t' || c == '\n' || c == '\r')
  let signed : Bool × List Char :=
    match cs with
    | '-' :: rest => (true, rest)
    | '+' :: rest => (false, rest)
    | rest => (false, rest)
  let digits := signed.2.takeWhile isDigitCh
  if digits.isEmpty then none
  else
    let n : Int := (decimalValue digits : Nat)
    some (if signed.1 then -n else n)

/-- Outcome of the upstream SAOS judgment fetch: the court type of the
fetched record, or the transport error the client threw. -/
inductive SaosFetch where
  | success (courtType : String)
  | failure (e : KioErr)
deriving DecidableEq, Repr

/-- The error path of SaosProvider.getJudgment: an unparseable numeric id
throws NotFoundError; an upstream ProviderError with status 404 is rethrown
as NotFoundError; other upstream errors propagate; a fetched record whose
court type is not the national appeal chamber throws NotFoundError; on a
matching record nothing is thrown. -/
def saosJudgmentThrown (providerId : String) (upstream : SaosFetch) :
    Option KioErr :=
  match jsParseInt providerId with
  | none => some (.notFoundError "judgment" providerId)
  | some _ =>
    match upstream with
    | .failure e =>
      match e with
      | .providerError msg prov statusCode retry =>
        if statusCode == 404 then some (.notFoundError "judgment" providerId)
        else some (.providerError msg prov statusCode retry)
      | _ => some e
    | .success courtType =>
      if courtType == "NATIONAL_APPEAL_CHAMBER" then none
      else some (.notFoundError "KIO judgment" providerId)

/-! ## Tool handler pipelines (src/tools/kio-get-judgment.ts and
src/tools/kio-search.ts), from the point where schema validation passed -/

/-- Observable pipeline steps, recorded in execution order: the rate-limit
check, the audit calls, the provider map lookup, the cache read and write,
and the provider dispatch. -/
inductive PipelineEvent where
  | rateCheck (clientId : String) (allowed : Bool)
  | auditRateLimitExceeded
  | providerLookup (provider : String) (registered : Bool)
  | cacheGetCall (key : String)
  | auditCacheHit (key : String)
  | auditCacheMiss (key : String)
  | providerDispatch (provider : String)
  | cacheSetCall (key : String)
  | auditAccess (cached : Bool)
  | auditErrorLogged
deriving DecidableEq, Repr

/-- Cache lookup outcome observed by a tool handler: a hit with the stored
payload, a miss, or a thrown cache error (swallowed as non-fatal). -/
inductive CacheLookupOutcome (α : Type) where
  | hit (value : α)
  | miss
  | threw
deriving DecidableEq, Repr

/-- The collaborators of one tool call: whether the rate limiter throws
(with message and retry delay), the registered provider names, the cache
content, and the provider adapter result. -/
structure ToolEnv (α : Type) where
  rateLimitThrown : Option (String × Int)
  registeredProviders : List String
  cacheLookup : String → CacheLookupOutcome α
  dispatchResult : Except KioErr α

/-- Validated input of kio_get_judgment. -/
structure KioGetJudgmentInput where
  provider : String
  providerId : String
  formatPreference : String
  maxChars : Nat
  offsetChars : Nat
deriving DecidableEq, Repr

/-- Embedding of generateCacheKey of the judgment tool: the colon-joined
parts of every parameter that affects the result. -/
def generateJudgmentCacheKey (input : KioGetJudgmentInput) : String :=
  String.intercalate ":" ("judgment" :: input.provider :: input.providerId ::
    input.formatPreference :: toString input.maxChars ::
    toString input.offsetChars :: [])

/-- Embedding of executeKioGetJudgment after validation: rate limit check,
provider map lookup (before the cache), cache lookup, dispatch, cache
store, error classification; the pipeline events are recorded in execution
order. -/
def executeKioGetJudgment (α : Type) (env : ToolEnv α) (clientId : String)
    (input : KioGetJudgmentInput) : ToolResponse α × List PipelineEvent :=
  match env.rateLimitThrown with
  | some (msg, retryAfterMs) =>
    (.err { code := "RATE_LIMIT_EXCEEDED", message := msg
            retryable := true, retryAfterMs := some retryAfterMs },
     .rateCheck clientId false :: .auditRateLimitExceeded :: [])
  | none =>
    let ev0 : List PipelineEvent := .rateCheck clientId true :: []
    if input.provider ∈ env.registeredProviders then
      let ev1 := ev0 ++ (.providerLookup input.provider true :: [])
      let cacheKey := generateJudgmentCacheKey input
      match env.cacheLookup cacheKey with
      | .hit value =>
        (.ok value true,
         ev1 ++ (.cacheGetCall cacheKey :: .auditCacheHit cacheKey ::
           .auditAccess true :: []))
      | outcome =>
        let ev2 := ev1 ++ (.cacheGetCall cacheKey ::
          (match outcome with
           | .miss => (.auditCacheMiss cacheKey :: [])
           | _ => []))
        match env.dispatchResult with
        | .ok value =>
          (.ok value false,
           ev2 ++ (.providerDispatch input.provider :: .cacheSetCall cacheKey ::
             .auditAccess false :: []))
        | .error e =>
          (.err (classifyJudgmentError e),
           ev2 ++ (.providerDispatch input.provider :: .auditErrorLogged :: []))
    else
      (.err { code := "PROVIDER_NOT_FOUND"
              message := "Provider " ++ input.provider ++ " not available"
              retryable := false, retryAfterMs := none },
       ev0 ++ (.providerLookup input.provider false :: []))

/-- Validated input of kio_search. -/
structure KioSearchInput where
  provider : String
  query : Option String
  caseNumber : Option String
  dateFrom : Option String
  dateTo : Option String
  judgmentType : Option String
  limit : Nat
  page : Nat
deriving DecidableEq, Repr

/-- Embedding of resolveProvider of the search tool: the auto preference
maps to saos. -/
def resolveProvider (preference : String) : String :=
  if preference == "auto" then "saos" else preference

/-- Embedding of generateCacheKey of the search tool. -/
def generateSearchCacheKey (input : KioSearchInput) (provider : String) :
    String :=
  String.intercalate ":" ("search" :: provider :: input.query.getD "" ::
    input.caseNumber.getD "" :: input.dateFrom.getD "" ::
    input.dateTo.getD "" :: input.judgmentType.getD "" ::
    toString input.limit :: toString input.page :: [])

/-- Embedding of executeKioSearch after validation: rate limit check,
provider resolution and map lookup (before the cache), cache lookup,
dispatch, cache store, error classification; the pipeline events are
recorded in execution order. -/
def executeKioSearch (α : Type) (env : ToolEnv α) (clientId : String)
    (input : KioSearchInput) : ToolResponse α × List PipelineEvent :=
  match env.rateLimitThrown with
  | some (msg, retryAfterMs) =>
    (.err { code := "RATE_LIMIT_EXCEEDED", message := msg
            retryable := true, retryAfterMs := some retryAfterMs },
     .rateCheck clientId false :: .auditRateLimitExceeded :: [])
  | none =>
    let ev0 : List PipelineEvent := .rateCheck clientId true :: []
    let provider := resolveProvider input.provider
    if provider ∈ env.registeredProviders then
      let ev1 := ev0 ++ (.providerLookup provider true :: [])
      let cacheKey := generateSearchCacheKey input provider
      match env.cacheLookup cacheKey with
      | .hit value =>
        (.ok value true,
         ev1 ++ (.cacheGetCall cacheKey :: .auditCacheHit cacheKey ::
           .auditAccess true :: []))
      | outcome =>
        let ev2 := ev1 ++ (.cacheGetCall cacheKey ::
          (match outcome with
           | .miss => (.auditCacheMiss cacheKey :: [])
           | _ => []))
        match env.dispatchResult with
        | .ok value =>
          (.ok value false,
           ev2 ++ (.providerDispatch provider :: .cacheSetCall cacheKey ::
             .auditAccess false :: []))
        | .error e =>
          (.err (classifyJudgmentError e),
           ev2 ++ (.providerDispatch provider :: .auditErrorLogged :: []))
    else
      (.err { code := "PROVIDER_NOT_FOUND"
              message := "Provider " ++ provider ++ " not available"
              retryable := false, retryAfterMs := none },
       ev0 ++ (.providerLookup provider false :: []))

/-- Concrete environment for the C4 counterexample: no provider registered
while every cache key holds an entry. -/
def envAllCachedUnregistered : ToolEnv Nat where
  rateLimitThrown := none
  registeredProviders := []
  cacheLookup := fun _ => .hit 7
  dispatchResult := .ok 0

/-- Concrete environment for C4 and C8 witnesses: saos registered, cache
hit everywhere. -/
def envRegisteredHit : ToolEnv Nat where
  rateLimitThrown := none
  registeredProviders := "saos" :: []
  cacheLookup := fun _ => .hit 7
  dispatchResult := .ok 0

/-- Concrete environment for C1: saos registered, cache miss, and the
provider dispatch throws the NotFoundError raised for the unparseable id
abc. -/
def envNotFoundDispatch : ToolEnv Nat where
  rateLimitThrown := none
  registeredProviders := "saos" :: []
  cacheLookup := fun _ => .miss
  dispatchResult := .error (.notFoundError "judgment" "abc")

/-- Concrete judgment input used in the C1 scenario: the provider id abc is
not parseable as a number. -/
def judgmentInputAbc : KioGetJudgmentInput where
  provider := "saos"
  providerId := "abc"
  formatPreference := "text"
  maxChars := 50000
  offsetChars := 0

/-- Concrete judgment input used in C4 and C8 statements. -/
def judgmentInputW : KioGetJudgmentInput where
  provider := "saos"
  providerId := "123"
  formatPreference := "text"
  maxChars := 50000
  offsetChars := 0

/-- Concrete search input used in C4 and C8 witnesses. -/
def searchInputW : KioSearchInput where
  provider := "auto"
  query := some "zam"
  caseNumber := none
  dateFrom := none
  dateTo := none
  judgmentType := none
  limit := 5
  page := 1

/-! ## HTML entity decoding (src/normalization/text-extractor.ts,
decodeHtmlEntities) -/

/-- ASCII lower-casing of a character, the case folding the JS i regex flag
applies to the ASCII patterns of the entity table. -/
def asciiLower (c : Char) : Char :=
  match c with
  | 'A' => 'a' | 'B' => 'b' | 'C' => 'c' | 'D' => 'd' | 'E' => 'e'
  | 'F' => 'f' | 'G' => 'g' | 'H' => 'h' | 'I' => 'i' | 'J' => 'j'
  | 'K' => 'k' | 'L' => 'l' | 'M' => 'm' | 'N' => 'n' | 'O' => 'o'
  | 'P' => 'p' | 'Q' => 'q' | 'R' => 'r' | 'S' => 's' | 'T' => 't'
  | 'U' => 'u' | 'V' => 'v' | 'W' => 'w' | 'X' => 'x' | 'Y' => 'y'
  | 'Z' => 'z'
  | c => c

/-- Case-insensitive match of a lowercase literal pattern at the head of
the input; returns the input remaining after the match. -/
def matchesCI : List Char → List Char → Option (List Char)
  | [], s => some s
  | _ :: _, [] => none
  | p :: ps, c :: cs => if asciiLower c = p then matchesCI ps cs else none

/-- One global case-insensitive literal replacement pass (a JS
String.replace with the gi flags): scan left to right, replace each
non-overlapping occurrence, never rescan the replacement text. The fuel
argument is initialized to the input length and only bounds the recursion:
every step consumes at least one input character, so it never runs out. -/
def replaceCIGo (p0 : Char) (ps rep : List Char) : Nat → List Char → List Char
  | _, [] => []
  | 0, s => s
  | fuel + 1, c :: cs =>
    if asciiLower c = p0 then
      match matchesCI ps cs with
      | some rest => rep ++ replaceCIGo p0 ps rep fuel rest
      | none => c :: replaceCIGo p0 ps rep fuel cs
    else c :: replaceCIGo p0 ps rep fuel cs

/-- Replacement of every case-insensitive occurrence of a literal pattern. -/
def replaceCI (pat rep s : List Char) : List Char :=
  match pat with
  | [] => s
  | p0 :: ps => replaceCIGo p0 ps rep s.length s

/-- The named entity table of decodeHtmlEntities, in the insertion order of
the source object literal (the order the replacement passes run in; the
ampersand entity is replaced before the angle-bracket entities). The
apostrophe replacement of the 39 and apos entities is written as an
escape. -/
def namedEntities : List (List Char × List Char) :=
  ("&nbsp;".toList, " ".toList) ::
  ("&amp;".toList, "&".toList) ::
  ("&lt;".toList, "<".toList) ::
  ("&gt;".toList, ">".toList) ::
  ("&quot;".toList, "\"".toList) ::
  ("&#39;".toList, "\x27".toList) ::
  ("&apos;".toList, "\x27".toList) ::
  ("&mdash;".toList, "—".toList) ::
  ("&ndash;".toList, "–".toList) ::
  ("&hellip;".toList, "...".toList) ::
  ("&laquo;".toList, "«".toList) ::
  ("&raquo;".toList, "»".toList) ::
  ("&bdquo;".toList, "„".toList) ::
  ("&ldquo;".toList, "\"".toList) ::
  ("&rdquo;".toList, "\"".toList) ::
  ("&lsquo;".toList, "‘".toList) ::
  ("&rsquo;".toList, "’".toList) ::
  ("&bull;".toList, "•".toList) ::
  ("&copy;".toList, "©".toList) ::
  ("&reg;".toList, "®".toList) ::
  ("&trade;".toList, "™".toList) ::
  ("&sect;".toList, "§".toList) ::
  ("&para;".toList, "¶".toList) ::
  ("&deg;".toList, "°".toList) ::
  ("&plusmn;".toList, "±".toList) ::
  ("&frac12;".toList, "½".toList) ::
  ("&frac14;".toList, "¼".toList) ::
  ("&frac34;".toList, "¾".toList) ::
  ("&times;".toList, "×".toList) ::
  ("&divide;".toList, "÷".toList) :: []

/-- JS String.fromCharCode: the code is truncated to a UTF-16 code unit.
Codes in the surrogate range are not Lean scalar values and fall back to
the null character; no claim depends on them. -/
def fromCharCode (n : Nat) : Char := Char.ofNat (n % 65536)

/-- Hex digit test of the hexadecimal entity pattern with the i flag. -/
def isHexDigitCh (c : Char) : Bool :=
  isDigitCh c || (decide ('a' ≤ asciiLower c) && decide (asciiLower c ≤ 'f'))

/-- Value of one hex digit. -/
def hexDigitValue (c : Char) : Nat :=
  if isDigitCh c then c.toNat - 48 else (asciiLower c).toNat - 87

/-- Value of a hex digit run. -/
def hexValue (ds : List Char) : Nat :=
  ds.foldl (fun acc c => acc * 16 + hexDigitValue c) 0

/-- The decimal numeric entity pass of decodeHtmlEntities: each occurrence
of an ampersand, a hash, a non-empty digit run and a semicolon becomes the
character of the decimal code; anything else is copied. Fuel as in
replaceCIGo. -/
def decDecodeGo : Nat → List Char → List Char
  | _, [] => []
  | 0, s => s
  | fuel + 1, c :: cs =>
    if c = '&' then
      match cs with
      | '#' :: rest =>
        if (rest.takeWhile isDigitCh).isEmpty then c :: decDecodeGo fuel cs
        else
          match rest.dropWhile isDigitCh with
          | ';' :: rest2 =>
            fromCharCode (decimalValue (rest.takeWhile isDigitCh)) ::
              decDecodeGo fuel rest2
          | _ => c :: decDecodeGo fuel cs
      | _ => c :: decDecodeGo fuel cs
    else c :: decDecodeGo fuel cs

/-- The hexadecimal numeric entity pass of decodeHtmlEntities: ampersand,
hash, an x of either case, a non-empty hex digit run and a semicolon. -/
def hexDecodeGo : Nat → List Char → List Char
  | _, [] => []
  | 0, s => s
  | fuel + 1, c :: cs =>
    if c = '&' then
      match cs with
      | '#' :: x :: rest =>
        if asciiLower x = 'x' then
          if (rest.takeWhile isHexDigitCh).isEmpty then c :: hexDecodeGo fuel cs
          else
            match rest.dropWhile isHexDigitCh with
            | ';' :: rest2 =>
              fromCharCode (hexValue (rest.takeWhile isHexDigitCh)) ::
                hexDecodeGo fuel rest2
            | _ => c :: hexDecodeGo fuel cs
        else c :: hexDecodeGo fuel cs
      | _ => c :: hexDecodeGo fuel cs
    else c :: hexDecodeGo fuel cs

/-- Embedding of decodeHtmlEntities: the named entity passes over the table
in insertion order, then the decimal numeric pass, then the hexadecimal
pass. -/
def decodeHtmlEntities (text : List Char) : List Char :=
  let afterNamed :=
    namedEntities.foldl (fun acc pr => replaceCI pr.1 pr.2 acc) text
  let afterDec := decDecodeGo afterNamed.length afterNamed
  hexDecodeGo afterDec.length afterDec

end KioMcp

namespace KioMcp

/-! ## Theorems about pagination -/

/-- C2: paginateContent returns the window from the clamped offset to the
clamped end, reports truncation exactly when the end offset is short of the
full length, returns the next offset only when truncated, always reports the
total length, and any offset at or beyond the length yields an empty window
that is not truncated. -/
theorem paginateContent_spec (fullText : List Char) (maxChars offsetChars : Nat) :
    (paginateContent fullText maxChars offsetChars).1 =
      (fullText.drop (min offsetChars fullText.length)).take
        (min (min offsetChars fullText.length + maxChars) fullText.length
          - min offsetChars fullText.length) ∧
    (paginateContent fullText maxChars offsetChars).2.truncated =
      decide (min (min offsetChars fullText.length + maxChars) fullText.length
        < fullText.length) ∧
    (paginateContent fullText maxChars offsetChars).2.nextOffsetChars =
      (if min (min offsetChars fullText.length + maxChars) fullText.length
          < fullText.length
       then some (min (min offsetChars fullText.length + maxChars) fullText.length)
       else none) ∧
    (paginateContent fullText maxChars offsetChars).2.totalChars = fullText.length ∧
    (fullText.length ≤ offsetChars →
      (paginateContent fullText maxChars offsetChars).1 = [] ∧
      (paginateContent fullText maxChars offsetChars).2.truncated = false) := by
  have hse : min offsetChars fullText.length ≤
      min (min offsetChars fullText.length + maxChars) fullText.length := by omega
  refine ⟨?_, rfl, rfl, rfl, ?_⟩
  · simp only [paginateContent, jsSubstring]
    have h1 : min (min offsetChars fullText.length) fullText.length =
        min offsetChars fullText.length := by omega
    have h2 : min (min (min offsetChars fullText.length + maxChars) fullText.length)
        fullText.length = min (min offsetChars fullText.length + maxChars)
        fullText.length := by omega
    rw [h1, h2, Nat.min_eq_left hse, Nat.max_eq_right hse]
  · intro hlen
    have hofs : min offsetChars fullText.length = fullText.length := by omega
    have hend : min (min offsetChars fullText.length + maxChars) fullText.length =
        fullText.length := by omega
    constructor
    · simp only [paginateContent, jsSubstring, hofs, hend]
      simp
    · simp only [paginateContent, hend]
      simp

/-- Witness for C2 at a concrete input: offset 5 on a text of length 3
yields the empty window and no truncation. -/
theorem paginateContent_spec_witness :
    (paginateContent ('a' :: 'b' :: 'c' :: []) 2 5).1 = [] ∧
    (paginateContent ('a' :: 'b' :: 'c' :: []) 2 5).2.truncated = false :=
  (paginateContent_spec ('a' :: 'b' :: 'c' :: []) 2 5).2.2.2.2 (by decide)

/-- C10: the unclamped inline pagination of the structured-API adapter is
extensionally equal to paginateContent, at every text, every maxChars and
every offset, including offsets beyond the text length. -/
theorem saosInlinePagination_eq_paginateContent
    (fullText : List Char) (maxChars offsetChars : Nat) :
    saosInlinePagination fullText maxChars offsetChars =
      paginateContent fullText maxChars offsetChars := by
  simp only [saosInlinePagination, paginateContent, jsSubstring]
  have h1 : min (offsetChars + maxChars) fullText.length =
      min (min offsetChars fullText.length + maxChars) fullText.length := by omega
  have h2 : min (min offsetChars fullText.length) fullText.length =
      min offsetChars fullText.length := by omega
  rw [h1, h2]

/-! ## Theorems about metadata merging -/

/-- Deduplicating an already deduplicated prefix again changes nothing:
folding the dedup of a list into a further dedup equals deduplicating the
concatenation directly. -/
theorem dedupSeen_append_left (l1 l2 seen : List String) :
    dedupSeen seen (dedupSeen seen l1 ++ l2) = dedupSeen seen (l1 ++ l2) := by
  induction l1 generalizing seen with
  | nil => rfl
  | cons x xs ih =>
    by_cases hx : x ∈ seen
    · simp only [dedupSeen, if_pos hx, List.cons_append]
      exact ih seen
    · simp only [dedupSeen, if_neg hx, List.cons_append, List.nil_append]
      exact congrArg (x :: ·) (ih (x :: seen))

/-- Merging two array contributions in sequence equals one first-seen
deduplication of the concatenation. -/
theorem mergeArrayField_two (a b : Option (List String)) :
    mergeArrayField (mergeArrayField [] a) b =
      deduplicateArray (a.getD [] ++ b.getD []) := by
  rcases a with _ | la <;> rcases b with _ | lb
  · rfl
  · rcases lb with _ | ⟨y, ys⟩
    · rfl
    · rfl
  · rcases la with _ | ⟨x, xs⟩
    · rfl
    · show deduplicateArray ([] ++ (x :: xs)) = deduplicateArray ((x :: xs) ++ [])
      rw [List.nil_append, List.append_nil]
  · rcases la with _ | ⟨x, xs⟩
    · rcases lb with _ | ⟨y, ys⟩ <;> rfl
    · rcases lb with _ | ⟨y, ys⟩
      · show mergeArrayField (deduplicateArray ([] ++ (x :: xs))) (some []) =
          deduplicateArray ((x :: xs) ++ [])
        rw [List.nil_append, List.append_nil]
        rfl
      · show deduplicateArray (deduplicateArray ([] ++ (x :: xs)) ++ (y :: ys)) =
          deduplicateArray ((x :: xs) ++ (y :: ys))
        rw [List.nil_append]
        exact dedupSeen_append_left (x :: xs) (y :: ys) []

/-- C3 counterexample: a fragment holding the decision value granted, merged
with a fragment whose decision is the empty string, loses the first value to
the empty override, although the override is not non-empty. -/
theorem mergeMetadata_empty_decision_clobbers :
    fragEmptyDecision.decision = some "" ∧
    (mergeMetadata (fragGranted :: fragEmptyDecision :: [])).decision = some "" ∧
    (mergeMetadata (fragGranted :: fragEmptyDecision :: [])).decision ≠
      some "granted" := by
  refine ⟨rfl, rfl, ?_⟩
  decide

/-- C3 amended: for two fragments, every array field of the merge is the
first-seen deduplicated union of the (possibly absent) array fields; the
scalar fields judgmentDate, judgmentType and courtName of the first fragment
survive unless the second supplies a non-empty override; the decision field
of the first fragment survives only when the second leaves decision absent:
any present decision of the second fragment, the empty string included,
overwrites it. -/
theorem mergeMetadata_two_spec (a b : MetadataFragment) :
    (mergeMetadata (a :: b :: [])).caseNumbers =
      deduplicateArray (a.caseNumbers.getD [] ++ b.caseNumbers.getD []) ∧
    (mergeMetadata (a :: b :: [])).legalBases =
      deduplicateArray (a.legalBases.getD [] ++ b.legalBases.getD []) ∧
    (mergeMetadata (a :: b :: [])).judges =
      deduplicateArray (a.judges.getD [] ++ b.judges.getD []) ∧
    (mergeMetadata (a :: b :: [])).keywords =
      deduplicateArray (a.keywords.getD [] ++ b.keywords.getD []) ∧
    ((b.judgmentDate = none ∨ b.judgmentDate = some "") →
      (mergeMetadata (a :: b :: [])).judgmentDate =
        (mergeMetadata (a :: [])).judgmentDate) ∧
    ((b.judgmentType = none ∨ b.judgmentType = some "") →
      (mergeMetadata (a :: b :: [])).judgmentType =
        (mergeMetadata (a :: [])).judgmentType) ∧
    ((b.courtName = none ∨ b.courtName = some "") →
      (mergeMetadata (a :: b :: [])).courtName =
        (mergeMetadata (a :: [])).courtName) ∧
    (b.decision = none →
      (mergeMetadata (a :: b :: [])).decision =
        (mergeMetadata (a :: [])).decision) ∧
    (∀ d, b.decision = some d →
      (mergeMetadata (a :: b :: [])).decision = some d) := by
  refine ⟨?_, ?_, ?_, ?_, ?_, ?_, ?_, ?_, ?_⟩
  · exact mergeArrayField_two a.caseNumbers b.caseNumbers
  · exact mergeArrayField_two a.legalBases b.legalBases
  · exact mergeArrayField_two a.judges b.judges
  · exact mergeArrayField_two a.keywords b.keywords
  · rintro (h | h) <;>
      simp [mergeMetadata, mergeMetadataStep, mergeScalarField, h]
  · rintro (h | h) <;>
      simp [mergeMetadata, mergeMetadataStep, mergeScalarField, h]
  · rintro (h | h) <;>
      simp [mergeMetadata, mergeMetadataStep, mergeCourtField, h]
  · intro h
    simp [mergeMetadata, mergeMetadataStep, mergeDecisionField, h]
  · intro d h
    simp [mergeMetadata, mergeMetadataStep, mergeDecisionField, h]

/-- Witness for C3 amended at concrete fragments: the array union is
deduplicated in first-seen order, an empty date override is ignored, and a
defined decision overwrites. -/
theorem mergeMetadata_two_spec_witness :
    (mergeMetadata (fragDated :: fragOverride :: [])).caseNumbers =
      deduplicateArray (fragDated.caseNumbers.getD [] ++
        fragOverride.caseNumbers.getD []) ∧
    (mergeMetadata (fragDated :: fragOverride :: [])).judgmentDate =
      (mergeMetadata (fragDated :: [])).judgmentDate ∧
    (mergeMetadata (fragDated :: fragOverride :: [])).decision = some "granted" := by
  refine ⟨(mergeMetadata_two_spec fragDated fragOverride).1, ?_, ?_⟩
  · exact (mergeMetadata_two_spec fragDated fragOverride).2.2.2.2.1 (Or.inr rfl)
  · exact (mergeMetadata_two_spec fragDated fragOverride).2.2.2.2.2.2.2.2 "granted" rfl

/-! ## Theorems about the rate limiter -/

/-- C5: checkLimit prunes every timestamp older than the window start from
the stored record; when the pruned count reaches maxRequests it rejects with
a retry delay of the oldest remaining timestamp plus the window minus now,
which is strictly positive; otherwise it records now and accepts; and once a
whole window has elapsed since every recorded request, the full budget of
maxRequests is available again and the next call is accepted. -/
theorem checkLimit_spec (cfg : RateLimitConfig) (now : Int) (timestamps : List Int)
    (hmax : 1 ≤ cfg.maxRequests) (hwin : 0 < cfg.windowMs)
    (hsorted : timestamps.Sorted (· ≤ ·)) :
    (∀ ts, ts < now - cfg.windowMs →
      ts ∉ rateNewTimestamps (checkLimit cfg now timestamps)) ∧
    (∀ t0 rest,
      timestamps.filter (fun ts => now - cfg.windowMs < ts) = t0 :: rest →
      cfg.maxRequests ≤ (t0 :: rest).length →
      checkLimit cfg now timestamps =
        .rejected (t0 + cfg.windowMs - now) (t0 :: rest) ∧
      0 < t0 + cfg.windowMs - now ∧
      (∀ t ∈ t0 :: rest, t0 ≤ t)) ∧
    ((timestamps.filter (fun ts => now - cfg.windowMs < ts)).length <
        cfg.maxRequests →
      checkLimit cfg now timestamps =
        .allowed (timestamps.filter (fun ts => now - cfg.windowMs < ts) ++
          (now :: []))) ∧
    ((∀ ts ∈ timestamps, ts + cfg.windowMs ≤ now) →
      checkLimit cfg now timestamps = .allowed (now :: []) ∧
      getRemainingRequests cfg now (some timestamps) = cfg.maxRequests) := by
  have hfilt : ∀ t ∈ timestamps.filter (fun ts => now - cfg.windowMs < ts),
      now - cfg.windowMs < t := by
    intro t ht
    exact of_decide_eq_true (List.mem_filter.mp ht).2
  refine ⟨?_, ?_, ?_, ?_⟩
  · intro ts hlt hmem
    rcases hp : timestamps.filter (fun t => now - cfg.windowMs < t) with _ | ⟨t0, rest⟩
    · have heq : checkLimit cfg now timestamps = .allowed (now :: []) := by
        simp only [checkLimit, hp, List.length_nil, List.nil_append]
        rw [if_neg (by omega)]
      rw [heq] at hmem
      simp only [rateNewTimestamps, List.mem_singleton] at hmem
      omega
    · by_cases hc : cfg.maxRequests ≤ (t0 :: rest).length
      · have heq : checkLimit cfg now timestamps =
            .rejected (t0 + cfg.windowMs - now) (t0 :: rest) := by
          simp only [checkLimit, hp]
          rw [if_pos hc]
        rw [heq] at hmem
        simp only [rateNewTimestamps] at hmem
        have := hfilt ts (hp ▸ hmem)
        omega
      · have heq : checkLimit cfg now timestamps =
            .allowed ((t0 :: rest) ++ (now :: [])) := by
          simp only [checkLimit, hp]
          rw [if_neg hc]
        rw [heq] at hmem
        simp only [rateNewTimestamps, List.mem_append, List.mem_singleton] at hmem
        rcases hmem with hmem | hmem
        · have := hfilt ts (hp ▸ hmem)
          omega
        · omega
  · intro t0 rest hp hc
    refine ⟨?_, ?_, ?_⟩
    · simp only [checkLimit, hp]
      rw [if_pos hc]
    · have ht0 : now - cfg.windowMs < t0 := hfilt t0 (hp ▸ List.mem_cons_self t0 rest)
      omega
    · have hps : (timestamps.filter (fun ts => now - cfg.windowMs < ts)).Sorted
          (· ≤ ·) := hsorted.filter _
      rw [hp] at hps
      intro t ht
      rcases List.mem_cons.mp ht with h | h
      · exact le_of_eq h.symm
      · exact (List.pairwise_cons.mp hps).1 t h
  · intro hlen
    simp only [checkLimit]
    rw [if_neg (Nat.not_le.mpr hlen)]
  · intro hall
    have hp : timestamps.filter (fun ts => now - cfg.windowMs < ts) = [] := by
      rw [List.filter_eq_nil_iff]
      intro a ha
      have := hall a ha
      simp only [decide_eq_true_eq]
      omega
    constructor
    · simp only [checkLimit, hp, List.length_nil, List.nil_append]
      rw [if_neg (by omega)]
    · simp only [getRemainingRequests, hp, List.length_nil]
      omega

/-- Witness for C5 at a concrete state: two in-window requests against a
budget of two make the third call rejected with a positive retry delay. -/
theorem checkLimit_spec_witness :
    checkLimit rlCfgW 100000 ((50000 : Int) :: 60000 :: []) =
      RateCheckResult.rejected (50000 + rlCfgW.windowMs - 100000)
        ((50000 : Int) :: 60000 :: []) ∧
    (0 : Int) < 50000 + rlCfgW.windowMs - 100000 := by
  have h := checkLimit_spec rlCfgW 100000 ((50000 : Int) :: 60000 :: [])
    (by decide) (by decide) (by decide)
  have h2 := h.2.1 50000 (60000 :: []) (by decide) (by decide)
  exact ⟨h2.1, h2.2.1⟩

/-! ## Theorems about the in-memory cache -/

/-- Setting a key makes it retrievable: lookup after set finds the new
value. -/
theorem mapGet_mapSet_self {α : Type} (m : List (String × α)) (k : String)
    (v : α) : mapGet (mapSet m k v) k = some v := by
  induction m with
  | nil => simp [mapSet, mapGet]
  | cons p rest ih =>
    obtain ⟨k0, v0⟩ := p
    by_cases h : k0 = k
    · simp [mapSet, mapGet, h]
    · simp [mapSet, mapGet, h, ih]

/-- A lookup misses exactly when no stored pair carries the key. -/
theorem mapGet_eq_none_iff {α : Type} (m : List (String × α)) (k : String) :
    mapGet m k = none ↔ ∀ p ∈ m, p.1 ≠ k := by
  induction m with
  | nil => simp [mapGet]
  | cons p rest ih =>
    obtain ⟨k0, v0⟩ := p
    by_cases h : k0 = k
    · simp [mapGet, h]
    · simp [mapGet, h, ih]

/-- A lookup that misses the first block continues in the second. -/
theorem mapGet_append_of_none {α : Type} (l1 l2 : List (String × α)) (k : String)
    (h : mapGet l1 k = none) : mapGet (l1 ++ l2) k = mapGet l2 k := by
  induction l1 with
  | nil => rfl
  | cons p rest ih =>
    obtain ⟨k0, v0⟩ := p
    by_cases hk : k0 = k
    · simp [mapGet, hk] at h
    · simp only [mapGet, if_neg hk] at h
      simp only [List.cons_append, mapGet, if_neg hk]
      exact ih h

/-- Setting a fresh key appends the pair at the end of the insertion
order. -/
theorem mapSet_of_get_none {α : Type} (m : List (String × α)) (k : String)
    (v : α) (h : mapGet m k = none) : mapSet m k v = m ++ ((k, v) :: []) := by
  induction m with
  | nil => rfl
  | cons p rest ih =>
    obtain ⟨k0, v0⟩ := p
    by_cases hk : k0 = k
    · simp [mapGet, hk] at h
    · simp only [mapGet, if_neg hk] at h
      simp only [mapSet, if_neg hk, List.cons_append]
      rw [ih h]

/-- Overwriting an existing key keeps the map size. -/
theorem mapSet_length_of_get_some {α : Type} (m : List (String × α)) (k : String)
    (v w : α) (h : mapGet m k = some w) : (mapSet m k v).length = m.length := by
  induction m with
  | nil => simp [mapGet] at h
  | cons p rest ih =>
    obtain ⟨k0, v0⟩ := p
    by_cases hk : k0 = k
    · simp [mapSet, hk]
    · simp only [mapGet, if_neg hk] at h
      simp [mapSet, hk, ih h]

/-- Dropping entries never makes an absent key present. -/
theorem mapGet_drop_none {α : Type} (m : List (String × α)) (k : String) (n : Nat)
    (h : mapGet m k = none) : mapGet (m.drop n) k = none := by
  rw [mapGet_eq_none_iff] at h ⊢
  intro p hp
  exact h p (List.mem_of_mem_drop hp)

/-- After a set under the capacity invariant, the key set stays retrievable:
eviction removes only the oldest other entries, never the entry just
written. -/
theorem mapGet_evict_set {α : Type} (m : List (String × α)) (k : String)
    (v : α) (maxE : Nat) (hlen : m.length ≤ maxE) (hmax : 1 ≤ maxE) :
    mapGet (evictIfNeeded maxE (mapSet m k v)) k = some v := by
  cases hk : mapGet m k with
  | some w =>
    have hl : (mapSet m k v).length = m.length :=
      mapSet_length_of_get_some m k v w hk
    rw [evictIfNeeded, if_pos (by omega)]
    exact mapGet_mapSet_self m k v
  | none =>
    rw [mapSet_of_get_none m k v hk, evictIfNeeded]
    by_cases hc : (m ++ ((k, v) :: [])).length ≤ maxE
    · rw [if_pos hc, mapGet_append_of_none _ _ _ hk]
      simp [mapGet]
    · rw [if_neg hc]
      have hlen2 : (m ++ ((k, v) :: [])).length = m.length + 1 := by simp
      have hd : (m ++ ((k, v) :: [])).length - maxE ≤ m.length := by omega
      rw [List.drop_append_of_le_length hd,
        mapGet_append_of_none _ _ _ (mapGet_drop_none m k _ hk)]
      simp [mapGet]

/-- Every key of the map after a set was a key before, or is the new key. -/
theorem mem_keys_mapSet {α : Type} (m : List (String × α)) (k q : String)
    (v : α) (h : q ∈ (mapSet m k v).map Prod.fst) :
    q ∈ m.map Prod.fst ∨ q = k := by
  induction m with
  | nil =>
    simp [mapSet] at h
    exact Or.inr h
  | cons p rest ih =>
    obtain ⟨k0, v0⟩ := p
    by_cases hk : k0 = k
    · simp only [mapSet, if_pos hk, List.map_cons, List.mem_cons] at h
      rcases h with h | h
      · exact Or.inr h
      · exact Or.inl (List.mem_cons_of_mem _ h)
    · simp only [mapSet, if_neg hk, List.map_cons, List.mem_cons] at h
      rcases h with h | h
      · exact Or.inl (List.mem_cons.mpr (Or.inl h))
      · rcases ih h with h2 | h2
        · exact Or.inl (List.mem_cons_of_mem _ h2)
        · exact Or.inr h2

/-- Setting a key preserves uniqueness of the stored keys. -/
theorem nodupKeys_mapSet {α : Type} (m : List (String × α)) (k : String)
    (v : α) (h : (m.map Prod.fst).Nodup) :
    ((mapSet m k v).map Prod.fst).Nodup := by
  induction m with
  | nil => simp [mapSet]
  | cons p rest ih =>
    obtain ⟨k0, v0⟩ := p
    simp only [List.map_cons, List.nodup_cons] at h
    by_cases hk : k0 = k
    · subst hk
      have hms : mapSet ((k0, v0) :: rest) k0 v = (k0, v) :: rest := by
        simp [mapSet]
      rw [hms]
      simp only [List.map_cons, List.nodup_cons]
      exact h
    · simp only [mapSet, if_neg hk, List.map_cons, List.nodup_cons]
      refine ⟨?_, ih h.2⟩
      intro hmem
      rcases mem_keys_mapSet rest k k0 v hmem with h2 | h2
      · exact h.1 h2
      · exact hk h2

/-- Eviction preserves uniqueness of the stored keys. -/
theorem nodupKeys_evict {α : Type} (maxE : Nat) (m : List (String × α))
    (h : (m.map Prod.fst).Nodup) :
    ((evictIfNeeded maxE m).map Prod.fst).Nodup := by
  rw [evictIfNeeded]
  split
  · exact h
  · exact List.Nodup.sublist
      (List.Sublist.map Prod.fst (List.drop_sublist _ _)) h

/-- With unique keys, deleting a key makes the next lookup miss. -/
theorem mapGet_mapDelete_self {α : Type} (m : List (String × α)) (k : String)
    (h : (m.map Prod.fst).Nodup) : mapGet (mapDelete m k) k = none := by
  induction m with
  | nil => rfl
  | cons p rest ih =>
    obtain ⟨k0, v0⟩ := p
    simp only [List.map_cons, List.nodup_cons] at h
    by_cases hk : k0 = k
    · subst hk
      simp only [mapDelete, if_pos rfl]
      rw [mapGet_eq_none_iff]
      intro q hq hq1
      exact h.1 (hq1 ▸ List.mem_map_of_mem Prod.fst hq)
    · simp only [mapDelete, if_neg hk, mapGet, if_neg hk]
      exact ih h.2

/-- Every cache operation either increments exactly one of the two request
counters (a get), leaves them unchanged (set and delete), or resets them
(clear): the counter sum after a run equals the get count since the last
clear. -/
theorem cacheRun_counts_aux {α : Type} (cfg : CacheConfig)
    (ops : List (CacheOp α)) :
    ∀ st : MemoryCacheState α,
      (ops.foldl (cacheStep cfg) st).hits +
          (ops.foldl (cacheStep cfg) st).misses =
        ops.foldl
          (fun g op =>
            match op with
            | CacheOp.get _ _ => g + 1
            | CacheOp.clear => 0
            | _ => g)
          (st.hits + st.misses) := by
  induction ops with
  | nil => intro st; rfl
  | cons op rest ih =>
    intro st
    simp only [List.foldl_cons]
    cases op with
    | get now k =>
      have hstep : (cacheStep cfg st (CacheOp.get now k)).hits +
          (cacheStep cfg st (CacheOp.get now k)).misses =
            st.hits + st.misses + 1 := by
        simp only [cacheStep, cacheGet]
        rcases hm : mapGet st.entries (buildKey cfg k) with _ | e
        · simp [hm]
          omega
        · by_cases he : e.expiresAt < now
          · simp [hm, he]
            omega
          · simp [hm, he]
            omega
      rw [ih (cacheStep cfg st (CacheOp.get now k)), hstep]
    | set now k v ttl => exact ih (cacheStep cfg st (CacheOp.set now k v ttl))
    | del k => exact ih (cacheStep cfg st (CacheOp.del k))
    | clear => exact ih (cacheStep cfg st CacheOp.clear)

/-- C7: a value set with TTL t is returned by get strictly before t has
elapsed; strictly after t has elapsed it is absent, the entry is deleted on
read and the read counts as a miss; and the reported hit rate always equals
hits over the number of get requests counted since the last clear, defined
as 0 when none occurred. -/
theorem memoryCache_spec :
    (∀ (α : Type) (cfg : CacheConfig) (st : MemoryCacheState α)
        (t0 now1 ttl : Int) (k : String) (v : α),
      1 ≤ cfg.maxEntries → st.entries.length ≤ cfg.maxEntries →
      now1 < t0 + ttl →
      (cacheGet cfg now1 k (cacheSet cfg t0 k v (some ttl) st)).1 = some v) ∧
    (∀ (α : Type) (cfg : CacheConfig) (st : MemoryCacheState α)
        (t0 now1 ttl : Int) (k : String) (v : α),
      1 ≤ cfg.maxEntries → st.entries.length ≤ cfg.maxEntries →
      (st.entries.map Prod.fst).Nodup →
      t0 + ttl < now1 →
      (cacheGet cfg now1 k (cacheSet cfg t0 k v (some ttl) st)).1 = none ∧
      (cacheGet cfg now1 k (cacheSet cfg t0 k v (some ttl) st)).2.misses =
        st.misses + 1 ∧
      mapGet (cacheGet cfg now1 k (cacheSet cfg t0 k v (some ttl) st)).2.entries
        (buildKey cfg k) = none) ∧
    (∀ (α : Type) (cfg : CacheConfig) (ops : List (CacheOp α)),
      (cacheRun cfg ops).hits + (cacheRun cfg ops).misses = getsSinceClear ops ∧
      (cacheStats (cacheRun cfg ops)).hitRate =
        (if 0 < getsSinceClear ops
         then ((cacheRun cfg ops).hits : ℚ) / (getsSinceClear ops : ℚ)
         else 0)) := by
  have hset : ∀ (α : Type) (cfg : CacheConfig) (st : MemoryCacheState α)
      (t0 ttl : Int) (k : String) (v : α),
      1 ≤ cfg.maxEntries → st.entries.length ≤ cfg.maxEntries →
      mapGet (cacheSet cfg t0 k v (some ttl) st).entries (buildKey cfg k) =
        some { value := v, expiresAt := t0 + ttl, createdAt := t0 } := by
    intro α cfg st t0 ttl k v hmax hlen
    simp only [cacheSet, Option.getD_some]
    exact mapGet_evict_set st.entries (buildKey cfg k) _ cfg.maxEntries hlen hmax
  refine ⟨?_, ?_, ?_⟩
  · intro α cfg st t0 now1 ttl k v hmax hlen hfresh
    simp only [cacheGet, hset α cfg st t0 ttl k v hmax hlen]
    rw [if_neg (show ¬ (t0 + ttl < now1) by omega)]
  · intro α cfg st t0 now1 ttl k v hmax hlen hnd hstale
    have hnd2 : ((cacheSet cfg t0 k v (some ttl) st).entries.map Prod.fst).Nodup := by
      simp only [cacheSet]
      exact nodupKeys_evict _ _ (nodupKeys_mapSet _ _ _ hnd)
    simp only [cacheGet, hset α cfg st t0 ttl k v hmax hlen]
    rw [if_pos (show t0 + ttl < now1 by omega)]
    refine ⟨rfl, rfl, ?_⟩
    exact mapGet_mapDelete_self _ _ hnd2
  · intro α cfg ops
    have h1 := cacheRun_counts_aux cfg ops (initialCacheState α)
    have hsum : (cacheRun cfg ops).hits + (cacheRun cfg ops).misses =
        getsSinceClear ops := h1
    refine ⟨hsum, ?_⟩
    have hq : ((cacheRun cfg ops).hits : ℚ) + ((cacheRun cfg ops).misses : ℚ) =
        (getsSinceClear ops : ℚ) := by
      have := congrArg (fun n : Nat => (n : ℚ)) hsum
      push_cast at this
      exact this
    simp only [cacheStats]
    rw [hsum, hq]

/-- Witness for C7 at concrete inputs: a value cached at time 0 with TTL
60000 is returned at 59999 and gone at 60001, and the run of one set and one
get reports the matching counters and hit rate. -/
theorem memoryCache_spec_witness :
    (cacheGet ccCfgW 59999 "k" (cacheSet ccCfgW 0 "k" (7 : Nat) (some 60000)
      (initialCacheState Nat))).1 = some 7 ∧
    (cacheGet ccCfgW 60001 "k" (cacheSet ccCfgW 0 "k" (7 : Nat) (some 60000)
      (initialCacheState Nat))).1 = none ∧
    (cacheRun ccCfgW (CacheOp.set 0 "k" (7 : Nat) (some 60000) ::
        CacheOp.get 59999 "k" :: [])).hits +
      (cacheRun ccCfgW (CacheOp.set 0 "k" (7 : Nat) (some 60000) ::
        CacheOp.get 59999 "k" :: [])).misses =
      getsSinceClear (CacheOp.set 0 "k" (7 : Nat) (some 60000) ::
        CacheOp.get 59999 "k" :: []) := by
  refine ⟨?_, ?_, ?_⟩
  · exact memoryCache_spec.1 Nat ccCfgW (initialCacheState Nat) 0 59999 60000 "k" 7
      (by decide) (by decide) (by decide)
  · exact (memoryCache_spec.2.1 Nat ccCfgW (initialCacheState Nat) 0 60001 60000
      "k" 7 (by decide) (by decide) (by simp [initialCacheState]) (by decide)).1
  · exact (memoryCache_spec.2.2 Nat ccCfgW _).1

/-! ## Theorems about the audit logger -/

/-- C9: with the sensitive-data opt-in left at its default, the stored
search entry has no query field and is independent of the raw query text:
two logs differing only in the query produce identical entries; under the
explicit opt-in the query is stored as given. -/
theorem logSearch_redacts_query_by_default (timestamp : String)
    (clientId : Option String) (provider : String) (q1 q2 : Option String)
    (resultCount : Nat) (latencyMs : Int) (cached : Bool) :
    (logSearchEntry (auditIncludeSensitive none) timestamp clientId provider
        q1 resultCount latencyMs cached).query = none ∧
    logSearchEntry (auditIncludeSensitive none) timestamp clientId provider
        q1 resultCount latencyMs cached =
      logSearchEntry (auditIncludeSensitive none) timestamp clientId provider
        q2 resultCount latencyMs cached ∧
    (∀ q : Option String,
      (logSearchEntry (auditIncludeSensitive (some true)) timestamp clientId
          provider q resultCount latencyMs cached).query = q) :=
  ⟨rfl, rfl, fun _ => rfl⟩

/-! ## Theorems about the error path of the tool pipeline -/

/-- C1: a not-found condition raised in SaosProvider.getJudgment (from an
unparseable id, an upstream 404, or a court-type mismatch) is a
NotFoundError; the catch block of the judgment tool matches it with neither
the ProviderError nor the ValidationError branch, so the caller-visible
error is a retryable internal error, not a non-retryable not-found. -/
theorem notFound_surfaces_as_retryable_internal :
    saosJudgmentThrown "abc" (SaosFetch.success "NATIONAL_APPEAL_CHAMBER") =
      some (KioErr.notFoundError "judgment" "abc") ∧
    saosJudgmentThrown "7777"
        (SaosFetch.failure (KioErr.providerError "Not Found" "saos" 404 false)) =
      some (KioErr.notFoundError "judgment" "7777") ∧
    saosJudgmentThrown "7777" (SaosFetch.success "COMMON") =
      some (KioErr.notFoundError "KIO judgment" "7777") ∧
    classifyJudgmentError (KioErr.notFoundError "judgment" "abc") =
      { code := "INTERNAL_ERROR"
        message := "An unexpected error occurred"
        retryable := true
        retryAfterMs := none } ∧
    (executeKioGetJudgment Nat envNotFoundDispatch "anonymous"
        judgmentInputAbc).1 =
      ToolResponse.err
        { code := "INTERNAL_ERROR"
          message := "An unexpected error occurred"
          retryable := true
          retryAfterMs := none } := by
  refine ⟨by decide, by decide, by decide, rfl, by decide⟩

/-- C4 counterexample: with no provider registered and a cache that holds an
unexpired entry for the computed key, the judgment pipeline returns the
provider-unavailable error instead of the cached result, and never consults
the cache: the provider-map check runs before any cache lookup, without a
preceding cache miss. -/
theorem cached_entry_not_returned_when_provider_unregistered :
    envAllCachedUnregistered.cacheLookup
        (generateJudgmentCacheKey judgmentInputW) = CacheLookupOutcome.hit 7 ∧
    (executeKioGetJudgment Nat envAllCachedUnregistered "anonymous"
        judgmentInputW).1 =
      ToolResponse.err
        { code := "PROVIDER_NOT_FOUND"
          message := "Provider saos not available"
          retryable := false
          retryAfterMs := none } ∧
    (∀ key, PipelineEvent.cacheGetCall key ∉
      (executeKioGetJudgment Nat envAllCachedUnregistered "anonymous"
        judgmentInputW).2) := by
  refine ⟨rfl, by decide, ?_⟩
  intro key hmem
  have htr : (executeKioGetJudgment Nat envAllCachedUnregistered "anonymous"
      judgmentInputW).2 =
      PipelineEvent.rateCheck "anonymous" true ::
      PipelineEvent.providerLookup "saos" false :: [] := by decide
  rw [htr] at hmem
  simp at hmem

/-- C4 amended: in both tool pipelines the provider-registration check
precedes the cache lookup; for every request that passes the rate limit,
names a registered provider and whose computed cache key holds an entry,
the cached result is returned with no provider dispatch, and the cache is
consulted only after the registration check succeeded, as the full event
trace shows. -/
theorem pipeline_provider_check_precedes_cache :
    (∀ (α : Type) (env : ToolEnv α) (clientId : String)
        (input : KioGetJudgmentInput) (v : α),
      env.rateLimitThrown = none →
      input.provider ∈ env.registeredProviders →
      env.cacheLookup (generateJudgmentCacheKey input) =
        CacheLookupOutcome.hit v →
      (executeKioGetJudgment α env clientId input).1 = ToolResponse.ok v true ∧
      (executeKioGetJudgment α env clientId input).2 =
        PipelineEvent.rateCheck clientId true ::
        PipelineEvent.providerLookup input.provider true ::
        PipelineEvent.cacheGetCall (generateJudgmentCacheKey input) ::
        PipelineEvent.auditCacheHit (generateJudgmentCacheKey input) ::
        PipelineEvent.auditAccess true :: []) ∧
    (∀ (α : Type) (env : ToolEnv α) (clientId : String)
        (input : KioSearchInput) (v : α),
      env.rateLimitThrown = none →
      resolveProvider input.provider ∈ env.registeredProviders →
      env.cacheLookup
          (generateSearchCacheKey input (resolveProvider input.provider)) =
        CacheLookupOutcome.hit v →
      (executeKioSearch α env clientId input).1 = ToolResponse.ok v true ∧
      (executeKioSearch α env clientId input).2 =
        PipelineEvent.rateCheck clientId true ::
        PipelineEvent.providerLookup (resolveProvider input.provider) true ::
        PipelineEvent.cacheGetCall
          (generateSearchCacheKey input (resolveProvider input.provider)) ::
        PipelineEvent.auditCacheHit
          (generateSearchCacheKey input (resolveProvider input.provider)) ::
        PipelineEvent.auditAccess true :: []) := by
  constructor
  · intro α env clientId input v hrl hreg hhit
    constructor <;> simp [executeKioGetJudgment, hrl, hreg, hhit]
  · intro α env clientId input v hrl hreg hhit
    constructor <;> simp [executeKioSearch, hrl, hreg, hhit]

/-- Witness for C4 amended: in a registered, all-cached environment both
pipelines return the cached payload. -/
theorem pipeline_provider_check_precedes_cache_witness :
    (executeKioGetJudgment Nat envRegisteredHit "anonymous" judgmentInputW).1 =
      ToolResponse.ok 7 true ∧
    (executeKioSearch Nat envRegisteredHit "anonymous" searchInputW).1 =
      ToolResponse.ok 7 true := by
  constructor
  · exact (pipeline_provider_check_precedes_cache.1 Nat envRegisteredHit
      "anonymous" judgmentInputW 7 rfl (by decide) rfl).1
  · exact (pipeline_provider_check_precedes_cache.2 Nat envRegisteredHit
      "anonymous" searchInputW 7 rfl (by decide) rfl).1

/-- C8: in both tool pipelines, a request that passes the rate limit but
names a provider missing from the provider map terminates with the
non-retryable provider-unavailable error, and no provider dispatch event
ever occurs, hence no adapter method or network call. -/
theorem provider_unavailable_spec :
    (∀ (α : Type) (env : ToolEnv α) (clientId : String)
        (input : KioGetJudgmentInput),
      env.rateLimitThrown = none →
      input.provider ∉ env.registeredProviders →
      (executeKioGetJudgment α env clientId input).1 =
        ToolResponse.err
          { code := "PROVIDER_NOT_FOUND"
            message := "Provider " ++ input.provider ++ " not available"
            retryable := false
            retryAfterMs := none } ∧
      (∀ p, PipelineEvent.providerDispatch p ∉
        (executeKioGetJudgment α env clientId input).2)) ∧
    (∀ (α : Type) (env : ToolEnv α) (clientId : String)
        (input : KioSearchInput),
      env.rateLimitThrown = none →
      resolveProvider input.provider ∉ env.registeredProviders →
      (executeKioSearch α env clientId input).1 =
        ToolResponse.err
          { code := "PROVIDER_NOT_FOUND"
            message := "Provider " ++ resolveProvider input.provider ++
              " not available"
            retryable := false
            retryAfterMs := none } ∧
      (∀ p, PipelineEvent.providerDispatch p ∉
        (executeKioSearch α env clientId input).2)) := by
  constructor
  · intro α env clientId input hrl hreg
    constructor
    · simp [executeKioGetJudgment, hrl, hreg]
    · intro p
      simp [executeKioGetJudgment, hrl, hreg]
  · intro α env clientId input hrl hreg
    constructor
    · simp [executeKioSearch, hrl, hreg]
    · intro p
      simp [executeKioSearch, hrl, hreg]

/-- Witness for C8: with an empty provider map both pipelines reject the
request as provider unavailable without dispatching. -/
theorem provider_unavailable_spec_witness :
    (executeKioGetJudgment Nat envAllCachedUnregistered "anonymous"
        judgmentInputW).1 =
      ToolResponse.err
        { code := "PROVIDER_NOT_FOUND"
          message := "Provider " ++ judgmentInputW.provider ++ " not available"
          retryable := false
          retryAfterMs := none } ∧
    (executeKioSearch Nat envAllCachedUnregistered "anonymous" searchInputW).1 =
      ToolResponse.err
        { code := "PROVIDER_NOT_FOUND"
          message := "Provider " ++ resolveProvider searchInputW.provider ++
            " not available"
          retryable := false
          retryAfterMs := none } := by
  constructor
  · exact (provider_unavailable_spec.1 Nat envAllCachedUnregistered "anonymous"
      judgmentInputW rfl (by decide)).1
  · exact (provider_unavailable_spec.2 Nat envAllCachedUnregistered "anonymous"
      searchInputW rfl (by decide)).1

/-! ## Theorems about entity decoding -/

/-- Case folding maps only uppercase letters, so only the ampersand itself
folds to an ampersand. -/
theorem asciiLower_eq_amp {c : Char} (h : asciiLower c = '&') : c = '&' := by
  unfold asciiLower at h
  split at h
  all_goals first
    | exact h
    | exact absurd h (by decide)

/-- A replacement pass for a pattern starting with an ampersand leaves an
ampersand-free text unchanged. -/
theorem replaceCIGo_no_amp (ps rep : List Char) (fuel : Nat) (s : List Char)
    (hs : '&' ∉ s) : replaceCIGo '&' ps rep fuel s = s := by
  induction fuel generalizing s with
  | zero => cases s <;> rfl
  | succ n ih =>
    cases s with
    | nil => rfl
    | cons c cs =>
      have hc : c ≠ '&' := fun hc => hs (hc ▸ List.mem_cons_self c cs)
      have hns : '&' ∉ cs := fun hm => hs (List.mem_cons_of_mem c hm)
      have hlow : ¬ asciiLower c = '&' := fun hl => hc (asciiLower_eq_amp hl)
      simp only [replaceCIGo, if_neg hlow]
      rw [ih cs hns]

/-- As above, for the wrapper taking the whole pattern. -/
theorem replaceCI_no_amp (pat rep s : List Char) (hp : pat.head? = some '&')
    (hs : '&' ∉ s) : replaceCI pat rep s = s := by
  cases pat with
  | nil => simp at hp
  | cons p0 ps =>
    simp only [List.head?_cons, Option.some.injEq] at hp
    subst hp
    exact replaceCIGo_no_amp ps rep s.length s hs

/-- Folding any table of ampersand-headed patterns over an ampersand-free
text changes nothing. -/
theorem foldl_replaceCI_no_amp (table : List (List Char × List Char))
    (s : List Char) (hs : '&' ∉ s)
    (ht : ∀ pr ∈ table, pr.1.head? = some '&') :
    table.foldl (fun acc pr => replaceCI pr.1 pr.2 acc) s = s := by
  induction table with
  | nil => rfl
  | cons pr rest ih =>
    simp only [List.foldl_cons]
    rw [replaceCI_no_amp pr.1 pr.2 s (ht pr (List.mem_cons_self pr rest)) hs]
    exact ih fun q hq => ht q (List.mem_cons_of_mem pr hq)

/-- The decimal pass leaves an ampersand-free text unchanged. -/
theorem decDecodeGo_no_amp (fuel : Nat) (s : List Char) (hs : '&' ∉ s) :
    decDecodeGo fuel s = s := by
  induction fuel generalizing s with
  | zero => cases s <;> rfl
  | succ n ih =>
    cases s with
    | nil => rfl
    | cons c cs =>
      have hc : c ≠ '&' := fun hc => hs (hc ▸ List.mem_cons_self c cs)
      have hns : '&' ∉ cs := fun hm => hs (List.mem_cons_of_mem c hm)
      simp only [decDecodeGo, if_neg hc]
      rw [ih cs hns]

/-- The hexadecimal pass leaves an ampersand-free text unchanged. -/
theorem hexDecodeGo_no_amp (fuel : Nat) (s : List Char) (hs : '&' ∉ s) :
    hexDecodeGo fuel s = s := by
  induction fuel generalizing s with
  | zero => cases s <;> rfl
  | succ n ih =>
    cases s with
    | nil => rfl
    | cons c cs =>
      have hc : c ≠ '&' := fun hc => hs (hc ▸ List.mem_cons_self c cs)
      have hns : '&' ∉ cs := fun hm => hs (List.mem_cons_of_mem c hm)
      simp only [hexDecodeGo, if_neg hc]
      rw [ih cs hns]

/-- Every pattern of the named entity table starts with an ampersand. -/
theorem namedEntities_head_amp :
    ∀ pr ∈ namedEntities, pr.1.head? = some '&' := by decide

/-- C6 counterexample: the text of an escaped angle-bracket entity decodes
in one pass to the entity text (the numeric pass runs after the named
passes), and a second application decodes that to the bracket itself:
decoding twice differs from decoding once. -/
theorem decodeHtmlEntities_not_idempotent :
    decodeHtmlEntities ("&#38;lt;".toList) = "&lt;".toList ∧
    decodeHtmlEntities (decodeHtmlEntities ("&#38;lt;".toList)) = "<".toList ∧
    decodeHtmlEntities (decodeHtmlEntities ("&#38;lt;".toList)) ≠
      decodeHtmlEntities ("&#38;lt;".toList) := by
  refine ⟨by decide, by decide, by decide⟩

/-- C6 amended: decodeHtmlEntities is the identity on every ampersand-free
text, and is therefore idempotent on every text whose single
decoding is ampersand-free; only outputs that still contain an ampersand
(for instance from a numerically escaped ampersand) can decode further. -/
theorem decodeHtmlEntities_idempotent_on_decoded (t : List Char) :
    ('&' ∉ t → decodeHtmlEntities t = t) ∧
    ('&' ∉ decodeHtmlEntities t →
      decodeHtmlEntities (decodeHtmlEntities t) = decodeHtmlEntities t) := by
  have hfix : ∀ s : List Char, '&' ∉ s → decodeHtmlEntities s = s := by
    intro s hs
    simp only [decodeHtmlEntities]
    rw [foldl_replaceCI_no_amp namedEntities s hs namedEntities_head_amp,
      decDecodeGo_no_amp s.length s hs, hexDecodeGo_no_amp s.length s hs]
  exact ⟨hfix t, fun h => hfix (decodeHtmlEntities t) h⟩

/-- Witness for C6 amended at a concrete text: a decoded Polish sentence
containing no ampersand is a fixed point and hence idempotent. -/
theorem decodeHtmlEntities_idempotent_witness :
    decodeHtmlEntities ("wyrok z dnia".toList) = "wyrok z dnia".toList ∧
    decodeHtmlEntities (decodeHtmlEntities ("wyrok z dnia".toList)) =
      decodeHtmlEntities ("wyrok z dnia".toList) := by
  constructor
  · exact (decodeHtmlEntities_idempotent_on_decoded ("wyrok z dnia".toList)).1
      (by decide)
  · exact (decodeHtmlEntities_idempotent_on_decoded ("wyrok z dnia".toList)).2
      (by decide)

end KioMcp
